import Mathlib

/-!
Verification of the core recommendation-matching and reading-capacity pipeline of the
readwise-reader repository.

Strings are embedded as lists of characters (`Str`), so that every JavaScript string
operation used by the source (split, trim, toLowerCase, regex scans, startsWith) can be
given an executable, provable model.  JavaScript `number` arithmetic is embedded as `ℚ`
(all quantities involved are exact small rationals) and `Math.ceil` as `Int.ceil`.
`Map<string, string>` is embedded as an insertion-ordered association list with
overwrite-in-place semantics, matching the iteration order of a JavaScript `Map`.
-/

/-- JavaScript strings, embedded as lists of characters. -/
abbrev Str := List Char

/-- Coerce a Lean string literal into the embedding. -/
def strOf (s : String) : Str := s.data

/-- The double-quote character (used by the quoted-title regex). -/
def dquote : Char := Char.ofNat 34

/-- `src/types`: an article extracted from a TLDR newsletter (`{url, title, summary}`). -/
structure TLDRArticle where
  title : Str
  url : Str
  summary : Str
deriving DecidableEq

/-- `src/types/reader`: a Reader document, restricted to the fields the verified core
reads (`title`, `url`, `reading_progress`).  The remaining fields of the source type
(`id`, `author`, timestamps, ...) are never inspected by the functions under proof. -/
structure Document where
  title : Str
  url : Str
  reading_progress : ℚ
deriving DecidableEq

/-- `src/types/reader`: response of the `/list/` endpoint, restricted to the fields the
pagination loop reads. -/
structure DocumentListResponse where
  results : List Document
  nextPageCursor : Option Str
deriving DecidableEq

/-- Result record of `readingAnalysis`. -/
structure ReadingAnalysis where
  readingCapacityPerDay : ℚ
  savingCapacityPerDay : ℚ
  recommendedArticleCount : ℤ
deriving DecidableEq

/-- Result record of `createDocumentsFromRecommendations`. -/
structure BatchResult where
  successCount : Nat
  failCount : Nat
  createdDocuments : List Document
deriving DecidableEq

instance {ε α : Type} [DecidableEq ε] [DecidableEq α] : DecidableEq (Except ε α) := fun x y =>
  match x, y with
  | .ok a, .ok b =>
    if h : a = b then isTrue (by rw [h]) else isFalse (by intro hc; injection hc; contradiction)
  | .error a, .error b =>
    if h : a = b then isTrue (by rw [h]) else isFalse (by intro hc; injection hc; contradiction)
  | .ok _, .error _ => isFalse (fun hc => Except.noConfusion hc)
  | .error _, .ok _ => isFalse (fun hc => Except.noConfusion hc)

/-! ### JavaScript string helpers -/

/-- JS `String.prototype.toLowerCase`, on the ASCII range exercised by the matcher. -/
def jsToLower (s : Str) : Str := s.map Char.toLower

/-- The fuzzy-matching normalizer of the quoted-title matcher:
`str.toLowerCase().replace(/[^\w]/g, "")` (lower-case, then keep only `\w` characters). -/
def jsNormalize (s : Str) : Str :=
  (s.map Char.toLower).filter (fun c => c.isAlphanum || c = '_')

/-- JS `String.prototype.trim` (whitespace stripped from both ends). -/
def jsTrim (s : Str) : Str :=
  ((s.dropWhile Char.isWhitespace).reverse.dropWhile Char.isWhitespace).reverse

/-- JS `String.prototype.split` with a single-character separator:
`"".split(sep) = [""]`, and separators delimit (possibly empty) fields. -/
def splitOnChar (sep : Char) : Str → List Str
  | [] => [[]]
  | c :: rest =>
    if c = sep then [] :: splitOnChar sep rest
    else
      match splitOnChar sep rest with
      | [] => [[c]]
      | l :: ls => (c :: l) :: ls

/-- A text consisting of exactly the given lines, one per line (no trailing newline):
the shape of a response the line-based matcher's prompt asks the assistant to emit. -/
def joinLines : List Str → Str
  | [] => []
  | [t] => t
  | t :: t2 :: ts => t ++ '\n' :: joinLines (t2 :: ts)

/-- Scanner for the global regex `/"([^"]+)"/g` of the quoted-title matcher.
`none` = scanning for an opening quote; `some acc` = inside a quoted run, with the
characters seen so far in reverse.  A quote that immediately follows an opening quote
becomes the new opening quote, exactly as the backtracking regex engine behaves. -/
def quotedScanAux : Option Str → Str → List Str
  | none, [] => []
  | none, c :: rest =>
    if c = dquote then quotedScanAux (some []) rest else quotedScanAux none rest
  | some _, [] => []
  | some acc, c :: rest =>
    if c = dquote then
      if acc = [] then quotedScanAux (some []) rest
      else acc.reverse :: quotedScanAux none rest
    else quotedScanAux (some (c :: acc)) rest

/-- All captures of `/"([^"]+)"/g` over the text, in order
(`promptGenerator.ts`, quoted-title variant, lines 255-263). -/
def extractQuoted (s : Str) : List Str := quotedScanAux none s

/-- Title extraction of the line-based variant (`promptGenerator.ts` lines 598-602):
split on newlines, trim each line, drop empty lines. -/
def extractLines (resp : Str) : List Str :=
  ((splitOnChar '\n' resp).map jsTrim).filter (fun l => decide (l ≠ []))

/-! ### JavaScript `Map<string, string>` -/

/-- JS `Map.prototype.has`. -/
def mapHas (m : List (Str × Str)) (k : Str) : Bool :=
  m.any (fun p => decide (p.1 = k))

/-- JS `Map.prototype.get` (first — and only — entry with the key). -/
def mapGet (m : List (Str × Str)) (k : Str) : Option Str :=
  (m.find? (fun p => decide (p.1 = k))).map (fun p => p.2)

/-- JS `Map.prototype.set`: overwrite in place if present, else append. -/
def mapSet (m : List (Str × Str)) (k v : Str) : List (Str × Str) :=
  if mapHas m k then m.map (fun p => if p.1 = k then (k, v) else p) else m ++ [(k, v)]

/-- `tldrArticles.forEach((article) => titleToUrlMap.set(article.title, article.url))`. -/
def buildTitleToUrlMap (tldrArticles : List TLDRArticle) : List (Str × Str) :=
  tldrArticles.foldl (fun m a => mapSet m a.title a.url) []

/-! ### Response Matcher: quoted-title variant (`promptGenerator.ts` lines 248-334) -/

/-- The tiered resolver of the quoted-title variant: exact map hit, then
case-insensitive scan, then normalized (fuzzy) scan; `none` when every tier fails. -/
def resolveQuoted (m : List (Str × Str)) (title : Str) : Option Str :=
  match mapGet m title with
  | some url => some url
  | none =>
    match m.find? (fun p => decide (jsToLower p.1 = jsToLower title)) with
    | some p => some p.2
    | none =>
      match m.find? (fun p => decide (jsNormalize p.1 = jsNormalize title)) with
      | some p => some p.2
      | none => none

/-- The recomputation used to build the error message of the quoted-title variant
(lines 314-325): a title is reported unmatched when it has no exact entry and no key
agrees with it case-insensitively or after normalization. -/
def unresolvedQuoted (m : List (Str × Str)) (title : Str) : Bool :=
  !(mapHas m title) &&
    !(m.any (fun p =>
      decide (jsToLower p.1 = jsToLower title) || decide (jsNormalize p.1 = jsNormalize title)))

/-- `extractTitlesAndMatchURLs`, quoted-title variant.  The thrown `Error` is embedded
as `Except.error` carrying the `unmatchedTitles` list that the source interpolates into
the error message. -/
def extractTitlesAndMatchURLsQuoted (aiResponse : Str) (tldrArticles : List TLDRArticle) :
    Except (List Str) (List Str) :=
  let extracted := extractQuoted aiResponse
  let titleToUrlMap := buildTitleToUrlMap tldrArticles
  let matchedUrls := (extracted.map (resolveQuoted titleToUrlMap)).reduceOption
  if matchedUrls.length ≠ extracted.length then
    Except.error (extracted.filter (unresolvedQuoted titleToUrlMap))
  else
    Except.ok matchedUrls

/-! ### Response Matcher: line-based variant (`promptGenerator.ts` lines 591-660) -/

/-- The resolver of the line-based variant: exact map hit, then case-insensitive scan
(the normalized tier is deliberately absent in this variant). -/
def resolveLine (m : List (Str × Str)) (title : Str) : Option Str :=
  match mapGet m title with
  | some url => some url
  | none =>
    match m.find? (fun p => decide (jsToLower p.1 = jsToLower title)) with
    | some p => some p.2
    | none => none

/-- The unmatched-title recomputation of the line-based variant (lines 643-651). -/
def unresolvedLine (m : List (Str × Str)) (title : Str) : Bool :=
  !(mapHas m title) && !(m.any (fun p => decide (jsToLower p.1 = jsToLower title)))

/-- `extractTitlesAndMatchURLs`, line-based variant. -/
def extractTitlesAndMatchURLsLine (aiResponse : Str) (tldrArticles : List TLDRArticle) :
    Except (List Str) (List Str) :=
  let extracted := extractLines aiResponse
  let titleToUrlMap := buildTitleToUrlMap tldrArticles
  let matchedUrls := (extracted.map (resolveLine titleToUrlMap)).reduceOption
  if matchedUrls.length ≠ extracted.length then
    Except.error (extracted.filter (unresolvedLine titleToUrlMap))
  else
    Except.ok matchedUrls

/-! ### Capacity Estimator (`promptGenerator.ts` lines 9-37) -/

/-- `readingAnalysis`: the lookback window is hard-coded to `6 * 7` days in the source
("Assuming the well-read docs are from the last 6 weeks"). -/
def readingAnalysis (tldrArticles : List TLDRArticle) (wellReadDocs : List Document) :
    ReadingAnalysis :=
  let readingCapacityPerDay : ℚ := (wellReadDocs.length : ℚ) / (6 * 7)
  let savingCapacityPerDay : ℚ := readingCapacityPerDay * 2
  let r0 : ℤ := ⌈savingCapacityPerDay * 7⌉
  let r1 : ℤ := if r0 < 3 then 3 else r0
  let r2 : ℤ := if r1 > 25 then 25 else r1
  ⟨readingCapacityPerDay, savingCapacityPerDay, r2⟩

/-! ### History Fetcher (`reader.ts` / SDK, `getWellReadDocuments`, lines 168-210)

The remote `listDocuments` call is abstracted as a function from the page cursor sent
(`none` on the first request) to the service's response; the date-window computation
fixes the other query fields and is not part of the pagination/filter logic under
proof.  The `do/while` loop is embedded with explicit fuel: `none` means the loop has
not terminated within `fuel` iterations.  The returned `Nat` counts the `listDocuments`
calls issued (one per loop iteration). -/

/-- JS truthiness of the `while (nextPageCursor)` condition: `undefined` and the empty
string are both falsy. -/
def truthyCursor : Option Str → Option Str
  | none => none
  | some s => if s = [] then none else some s

/-- The pagination loop of `getWellReadDocuments`: issue one `listDocuments` call,
accumulate `response.results`, continue while the response carries a truthy
`nextPageCursor`. -/
def getWellReadPages (listDocs : Option Str → DocumentListResponse) :
    Nat → Option Str → Option (List Document × Nat)
  | 0, _ => none
  | fuel + 1, cursor =>
    let r := listDocs cursor
    match truthyCursor r.nextPageCursor with
    | none => some (r.results, 1)
    | some c =>
      match getWellReadPages listDocs fuel (some c) with
      | none => none
      | some (docs, n) => some (r.results ++ docs, n + 1)

/-- `getWellReadDocuments`: run the pagination loop from no cursor, then filter the
accumulated documents to `reading_progress > 0.75`. -/
def getWellReadDocuments (listDocs : Option Str → DocumentListResponse) (fuel : Nat) :
    Option (List Document × Nat) :=
  (getWellReadPages listDocs fuel none).map
    (fun p => (p.1.filter (fun d => decide ((0.75 : ℚ) < d.reading_progress)), p.2))

/-- The finite cursor chains of a service: the sequence of responses the loop receives
when, starting from cursor `c`, each response's (truthy) cursor is followed until a
response carries none. -/
inductive CursorChain (s : Option Str → DocumentListResponse) :
    Option Str → List DocumentListResponse → Prop
  | last (c : Option Str) (h : truthyCursor (s c).nextPageCursor = none) :
      CursorChain s c [s c]
  | step (c : Option Str) (c2 : Str) (rs : List DocumentListResponse)
      (h : truthyCursor (s c).nextPageCursor = some c2)
      (hrest : CursorChain s (some c2) rs) : CursorChain s c (s c :: rs)

/-- The pagination loop terminates on service `s` (for some finite fuel). -/
def PaginationTerminates (s : Option Str → DocumentListResponse) : Prop :=
  ∃ fuel docs n, getWellReadPages s fuel none = some (docs, n)

/-- A service that echoes a non-terminating cursor on every response. -/
def alwaysCursorService : Option Str → DocumentListResponse :=
  fun _ => ⟨[], some (strOf "again")⟩

/-! ### Batch Importer (`createDocumentsFromRecommendations`, SDK part, lines 232-287)

`sdk.createDocument` is abstracted as a function from the (0-based) position of the
request and the URL sent to either the created document or a thrown error.  The
inter-request `delay` only suspends; it has no effect on the returned record and is
not part of the value-level model. -/

/-- The sequential loop body: one `try/catch` per URL, in input order, starting at
position `i`. -/
def createBatchGo (create : Nat → Str → Except Str Document) :
    Nat → List Str → BatchResult
  | _, [] => ⟨0, 0, []⟩
  | i, url :: rest =>
    let r := createBatchGo create (i + 1) rest
    match create i url with
    | .ok newDoc => ⟨r.successCount + 1, r.failCount, newDoc :: r.createdDocuments⟩
    | .error _ => ⟨r.successCount, r.failCount + 1, r.createdDocuments⟩

/-- `createDocumentsFromRecommendations`: process every URL sequentially, isolating
each failure; nothing escapes the per-item `try/catch` (the embedding is total). -/
def createDocumentsFromRecommendations (create : Nat → Str → Except Str Document)
    (recommendedUrls : List Str) : BatchResult :=
  createBatchGo create 0 recommendedUrls

/-! ### URL-mode cleanup (`cache.ts`, `cleanAndValidateURL`, lines 285-357)

The platform `URL` / `URLSearchParams` classes are modelled for plain `http(s)`
URLs of the shape `scheme://host/path?k=v&...` (no encoding, userinfo, port,
fragment): parsing splits the components apart, serialization re-joins them,
exactly as `URL.toString()` behaves on such URLs.  The deny-list filtering logic
itself is translated directly from the source. -/

/-- The fixed tracking-parameter deny-list (lines 291-305). -/
def trackingParams : List Str :=
  [strOf "utm_", strOf "ref", strOf "fbclid", strOf "gclid", strOf "ocid",
    strOf "mc_cid", strOf "mc_eid", strOf "yclid", strOf "zanpid", strOf "_hsenc",
    strOf "_hsmi", strOf "igshid", strOf "mkt_tok"]

/-- `key === param || key.startsWith(param)` for some deny-list entry. -/
def isTrackingKey (k : Str) : Bool :=
  trackingParams.any (fun p => decide (k = p) || p.isPrefixOf k)

/-- The nested `forEach` removal loop (lines 312-320): for each deny-list entry, delete
every present key equal to it or starting with it. -/
def cleanSearchParams (ps : List (Str × Str)) : List (Str × Str)  :=
  trackingParams.foldl
    (fun acc param => acc.filter (fun kv => !(decide (kv.1 = param) || param.isPrefixOf kv.1)))
    ps

/-- A parsed simple URL (model of the platform `URL` object for the shapes above). -/
structure ParsedURL where
  scheme : Str
  host : Str
  path : Str
  params : List (Str × Str)
deriving DecidableEq

/-- One `k=v` search segment (value empty when no `=` is present). -/
def parseParam (s : Str) : Str × Str :=
  (s.takeWhile (fun c => decide (c ≠ '=')), (s.dropWhile (fun c => decide (c ≠ '='))).tail)

/-- `URLSearchParams` of a raw query string (empty segments are skipped). -/
def parseParams (q : Str) : List (Str × Str) :=
  ((splitOnChar '&' q).filter (fun s => decide (s ≠ []))).map parseParam

/-- Serialization of search parameters (`URLSearchParams.toString`). -/
def serializeParams (ps : List (Str × Str)) : Str :=
  joinLines (ps.map (fun kv => kv.1 ++ '=' :: kv.2)) |>.map (fun c => if c = '\n' then '&' else c)

/-- `URL.toString()` for the simple URL shapes of this model. -/
def serializeURL (u : ParsedURL) : Str :=
  u.scheme ++ strOf "://" ++ u.host ++ u.path ++
    (match u.params with
     | [] => []
     | _ => '?' :: serializeParams u.params)

/-- Split the remainder after `scheme://` into host, path and parsed query. -/
def parseAfterScheme (scheme rest : Str) : Option ParsedURL :=
  let host := rest.takeWhile (fun c => decide (c ≠ '/') && decide (c ≠ '?'))
  let after := rest.dropWhile (fun c => decide (c ≠ '/') && decide (c ≠ '?'))
  let path := after.takeWhile (fun c => decide (c ≠ '?'))
  let qpart := after.dropWhile (fun c => decide (c ≠ '?'))
  if host = [] then none
  else
    some ⟨scheme, host, path,
      match qpart with
      | [] => []
      | _ :: q => parseParams q⟩

/-- Model of `new URL(...)` restricted to simple `http(s)` URLs; `none` embeds the
thrown `TypeError` on other inputs. -/
def parseSimpleURL (s : Str) : Option ParsedURL :=
  if (strOf "https://").isPrefixOf s then parseAfterScheme (strOf "https") (s.drop 8)
  else if (strOf "http://").isPrefixOf s then parseAfterScheme (strOf "http") (s.drop 7)
  else none

/-- `cleanAndValidateURL`: parse, strip tracking parameters, re-serialize; on a parse
failure the original string is returned unchanged.  (The shortener-domain check only
logs a warning and does not affect the result.) -/
def cleanAndValidateURL (s : Str) : Str :=
  match parseSimpleURL s with
  | none => s
  | some u => serializeURL ⟨u.scheme, u.host, u.path, cleanSearchParams u.params⟩

/-! ### Concrete fixtures used by witnesses and counterexamples -/

/-- A well-read archive document (progress 1). -/
def pageDoc (n : Nat) : Document := ⟨strOf "d" ++ strOf (toString n), strOf "u", 1⟩

/-- First page: 2 records, continuation cursor `c1`. -/
def pageResp1 : DocumentListResponse := ⟨[pageDoc 1, pageDoc 2], some (strOf "c1")⟩

/-- Second page: 2 records, continuation cursor `c2`. -/
def pageResp2 : DocumentListResponse := ⟨[pageDoc 3, pageDoc 4], some (strOf "c2")⟩

/-- Third page: 1 record, no continuation cursor. -/
def pageResp3 : DocumentListResponse := ⟨[pageDoc 5], none⟩

/-- A three-page service: 2/2/1 records, cursors on the first two responses only. -/
def threePageService : Option Str → DocumentListResponse
  | none => pageResp1
  | some c => if c = strOf "c2" then pageResp3 else pageResp2

/-- A creator that fails exactly on the second request and otherwise returns a document
recording the URL it was given. -/
def secondFailsCreate : Nat → Str → Except Str Document :=
  fun i url => if i = 1 then .error (strOf "500") else .ok ⟨url, url, 0⟩

/-- A fully read document fixture. -/
def docFixture : Document := ⟨[], [], 1⟩

/-- An unread document fixture. -/
def docFixture2 : Document := ⟨strOf "x", strOf "y", 0⟩

/-- Candidate article `Alpha`. -/
def selArticleA : TLDRArticle := ⟨strOf "Alpha", strOf "u1", []⟩

/-- Candidate article `Beta`. -/
def selArticleB : TLDRArticle := ⟨strOf "Beta", strOf "u2", []⟩

/-- First of two candidates sharing the title `a`. -/
def dupArticle1 : TLDRArticle := ⟨strOf "a", strOf "u1", []⟩

/-- Second of two candidates sharing the title `a`. -/
def dupArticle2 : TLDRArticle := ⟨strOf "a", strOf "u2", []⟩

/-- A candidate whose title is the single letter `A`. -/
def qtArticle : TLDRArticle := ⟨strOf "A", strOf "u", []⟩

/-- The response text `"A" and "a"`: it quotes the candidate's title once and a
case-variant of it once. -/
def qtResponse : Str :=
  [dquote] ++ strOf "A" ++ [dquote] ++ strOf " and " ++ [dquote] ++ strOf "a" ++ [dquote]

/-! ### Helper lemmas -/

/-- A list has a satisfying element iff `find?` succeeds. -/
theorem any_eq_find_isSome {α : Type} (p : α → Bool) (l : List α) :
    l.any p = (l.find? p).isSome := by
  induction l with
  | nil => rfl
  | cons a l ih =>
    cases h : p a
    · simp [List.any_cons, List.find?, h, ih]
    · simp [List.any_cons, List.find?, h]

/-- `any` distributes over a pointwise disjunction of predicates. -/
theorem any_or_right {α : Type} (l : List α) (p q : α → Bool) :
    l.any (fun x => p x || q x) = (l.any p || l.any q) := by
  induction l with
  | nil => rfl
  | cons a l ih =>
    simp only [List.any_cons, ih]
    cases p a <;> cases q a <;> cases l.any p <;> cases l.any q <;> rfl

/-- The error-message recomputation of the quoted-title variant agrees exactly with
the resolver: a title is reported unmatched iff every tier failed. -/
theorem resolveQuoted_isNone (m : List (Str × Str)) (t : Str) :
    unresolvedQuoted m t = (resolveQuoted m t).isNone := by
  simp only [unresolvedQuoted, resolveQuoted, mapGet, mapHas, any_or_right]
  simp only [any_eq_find_isSome]
  cases m.find? (fun p => decide (p.1 = t)) <;>
    cases m.find? (fun p => decide (jsToLower p.1 = jsToLower t)) <;>
      cases m.find? (fun p => decide (jsNormalize p.1 = jsNormalize t)) <;> rfl

/-- Same agreement for the line-based variant (exact and case-insensitive tiers). -/
theorem resolveLine_isNone (m : List (Str × Str)) (t : Str) :
    unresolvedLine m t = (resolveLine m t).isNone := by
  simp only [unresolvedLine, resolveLine, mapGet, mapHas, any_eq_find_isSome]
  cases m.find? (fun p => decide (p.1 = t)) <;>
    cases m.find? (fun p => decide (jsToLower p.1 = jsToLower t)) <;> rfl

/-- A list of options all of which survived `reduceOption` is a list of `some`s. -/
theorem reduceOption_all_some {α : Type} (l : List (Option α))
    (h : l.reduceOption.length = l.length) : l = l.reduceOption.map some := by
  induction l with
  | nil => rfl
  | cons o l ih =>
    cases o with
    | some a =>
      rw [List.reduceOption_cons_of_some] at h ⊢
      simp only [List.length_cons] at h
      rw [List.map_cons, ← ih (Nat.succ_injective h)]
    | none =>
      rw [List.reduceOption_cons_of_none] at h
      have hle := List.reduceOption_length_le l
      simp only [List.length_cons] at h
      omega

/-- The common all-or-nothing shape of both matcher variants: either every extracted
title resolves (and the result pairs one URL to each title, in order), or the error
carries exactly the unresolved titles, of which there is at least one. -/
theorem matcherAllOrNothing (ts : List Str) (resolve : Str → Option Str)
    (unr : Str → Bool) (hu : ∀ t, unr t = (resolve t).isNone) :
    (match (if ((ts.map resolve).reduceOption).length ≠ ts.length
            then (Except.error (ts.filter unr) : Except (List Str) (List Str))
            else Except.ok ((ts.map resolve).reduceOption)) with
     | .ok urls => ts.map resolve = urls.map some
     | .error l => l = ts.filter (fun t => (resolve t).isNone) ∧ l ≠ []) := by
  by_cases h : ((ts.map resolve).reduceOption).length = ts.length
  · rw [if_neg (by simpa using h)]
    have hlen : ((ts.map resolve).reduceOption).length = (ts.map resolve).length := by
      simpa using h
    exact reduceOption_all_some _ hlen
  · rw [if_pos (by simpa using h)]
    refine ⟨List.filter_congr (fun t _ => hu t), ?_⟩
    have hlt : ((ts.map resolve).reduceOption).length < (ts.map resolve).length := by
      refine lt_of_le_of_ne (List.reduceOption_length_le _) ?_
      simpa using h
    have hnone : none ∈ ts.map resolve := List.reduceOption_length_lt_iff.mp hlt
    obtain ⟨t, ht, hres⟩ := List.mem_map.mp hnone
    have hmem : t ∈ ts.filter unr :=
      List.mem_filter.mpr ⟨ht, by rw [hu t, hres]; rfl⟩
    exact List.ne_nil_of_mem hmem

/-! ### Claim theorems -/

/-- C1: both variants of `extractTitlesAndMatchURLs` either resolve every extracted
title — returning exactly one URL per extracted title, in order — or throw an error
enumerating exactly the unresolved titles (at least one); a proper subset of the
extracted titles' URLs is never returned. -/
theorem matchers_all_or_nothing (resp : Str) (arts : List TLDRArticle) :
    (match extractTitlesAndMatchURLsQuoted resp arts with
     | .ok urls =>
        (extractQuoted resp).map (resolveQuoted (buildTitleToUrlMap arts)) = urls.map some
     | .error l =>
        l = (extractQuoted resp).filter
              (fun t => (resolveQuoted (buildTitleToUrlMap arts) t).isNone)
        ∧ l ≠ [])
    ∧
    (match extractTitlesAndMatchURLsLine resp arts with
     | .ok urls =>
        (extractLines resp).map (resolveLine (buildTitleToUrlMap arts)) = urls.map some
     | .error l =>
        l = (extractLines resp).filter
              (fun t => (resolveLine (buildTitleToUrlMap arts) t).isNone)
        ∧ l ≠ []) := by
  constructor
  · exact matcherAllOrNothing (extractQuoted resp) _ _
      (resolveQuoted_isNone (buildTitleToUrlMap arts))
  · exact matcherAllOrNothing (extractLines resp) _ _
      (resolveLine_isNone (buildTitleToUrlMap arts))

/-- C3 counterexample: `readingAnalysis` is not parameterized by a lookback window.
With 42 well-read documents it reports a reading capacity of `1` per day (the window
is hard-coded to 42 days), which differs from `wellReadCount / lookbackDays` at the
positive lookback value `1`. -/
theorem readingAnalysis_not_parametric_in_lookback :
    (readingAnalysis [] (List.replicate 42 docFixture)).readingCapacityPerDay
      ≠ (42 : ℚ) / 1 := by
  simp only [readingAnalysis, List.length_replicate]
  norm_num

/-- C3 (amended): with the lookback window fixed at `6 * 7 = 42` days,
`readingCapacityPerDay = wellReadCount / 42`, `savingCapacityPerDay` is twice that,
and `recommendedArticleCount` is the ceiling of seven times the saving capacity,
clamped into `[3, 25]`. -/
theorem readingAnalysis_fixed_window_formulas (tldr : List TLDRArticle)
    (docs : List Document) :
    (readingAnalysis tldr docs).readingCapacityPerDay = (docs.length : ℚ) / 42
  ∧ (readingAnalysis tldr docs).savingCapacityPerDay
      = (readingAnalysis tldr docs).readingCapacityPerDay * 2
  ∧ (readingAnalysis tldr docs).recommendedArticleCount
      = min 25 (max 3 ⌈(readingAnalysis tldr docs).savingCapacityPerDay * 7⌉) := by
  refine ⟨by norm_num [readingAnalysis], rfl, ?_⟩
  simp only [readingAnalysis]
  split_ifs <;> omega

/-- C7: `recommendedArticleCount` always lies in `[3, 25]`, and equals `3` when there
are no well-read documents. -/
theorem recommendedArticleCount_range (tldr : List TLDRArticle) (docs : List Document) :
    (3 ≤ (readingAnalysis tldr docs).recommendedArticleCount
      ∧ (readingAnalysis tldr docs).recommendedArticleCount ≤ 25)
  ∧ (docs.length = 0 → (readingAnalysis tldr docs).recommendedArticleCount = 3) := by
  constructor
  · simp only [readingAnalysis]
    constructor <;> (split_ifs <;> omega)
  · intro h
    simp only [readingAnalysis, h]
    norm_num

/-- C7 witness: the range theorem applied at the empty reading history. -/
theorem recommendedArticleCount_range_witness :
    (readingAnalysis [] []).recommendedArticleCount = 3 :=
  (recommendedArticleCount_range [] []).2 rfl

/-- C9: the Capacity Estimator's output is independent of the candidate article list
and depends only on the number of well-read documents. -/
theorem readingAnalysis_independent_of_candidates (t1 t2 : List TLDRArticle)
    (d1 d2 : List Document) (h : d1.length = d2.length) :
    readingAnalysis t1 d1 = readingAnalysis t2 d2 := by
  simp [readingAnalysis, h]

/-- C9 witness: two calls with different candidate lists and different (but equally
long) history lists coincide. -/
theorem readingAnalysis_independent_of_candidates_witness :
    readingAnalysis [⟨strOf "t", strOf "u", strOf "s"⟩] [docFixture]
      = readingAnalysis [] [docFixture2] :=
  readingAnalysis_independent_of_candidates _ _ _ _ rfl

/-- The sequential batch loop, started at any position, satisfies the tally and
order-preservation invariants. -/
theorem createBatchGo_spec (create : Nat → Str → Except Str Document)
    (urls : List Str) : ∀ i : Nat,
    (createBatchGo create i urls).successCount + (createBatchGo create i urls).failCount
        = urls.length
    ∧ (createBatchGo create i urls).createdDocuments
        = (List.enumFrom i urls).filterMap (fun iu => (create iu.1 iu.2).toOption) := by
  induction urls with
  | nil => intro i; exact ⟨rfl, rfl⟩
  | cons u rest ih =>
    intro i
    obtain ⟨h1, h2⟩ := ih (i + 1)
    cases h : create i u with
    | ok d =>
      constructor
      · simp only [createBatchGo, h, List.length_cons]
        omega
      · simp only [createBatchGo, h, List.enumFrom, List.filterMap_cons, Except.toOption, h2]
    | error e =>
      constructor
      · simp only [createBatchGo, h, List.length_cons]
        omega
      · simp only [createBatchGo, h, List.enumFrom, List.filterMap_cons, Except.toOption, h2]

/-- C4: the Batch Importer processes the URLs sequentially in input order, isolates
every creation failure (the embedding is total — nothing escapes the per-item
`try/catch`), its tallies satisfy `successCount + failCount = urls.length`, and
`createdDocuments` contains exactly the successfully created records in input order;
in particular, for 3 URLs whose second creation fails, it returns tallies 2/1 and the
first and third documents. -/
theorem createDocumentsFromRecommendations_batch (create : Nat → Str → Except Str Document)
    (urls : List Str) :
    (createDocumentsFromRecommendations create urls).successCount
        + (createDocumentsFromRecommendations create urls).failCount = urls.length
  ∧ (createDocumentsFromRecommendations create urls).createdDocuments
        = urls.enum.filterMap (fun iu => (create iu.1 iu.2).toOption)
  ∧ createDocumentsFromRecommendations secondFailsCreate [strOf "u1", strOf "u2", strOf "u3"]
        = ⟨2, 1, [⟨strOf "u1", strOf "u1", 0⟩, ⟨strOf "u3", strOf "u3", 0⟩]⟩ := by
  refine ⟨(createBatchGo_spec create urls 0).1, ?_, by decide⟩
  have h := (createBatchGo_spec create urls 0).2
  simpa [List.enum] using h

/-- Along any finite cursor chain, the pagination loop (with sufficient fuel) returns
the concatenation of the chain's pages in order, issuing exactly one call per page. -/
theorem cursorChain_pages (s : Option Str → DocumentListResponse) (c : Option Str)
    (rs : List DocumentListResponse) (h : CursorChain s c rs) :
    ∀ fuel, rs.length ≤ fuel →
      getWellReadPages s fuel c = some ((rs.map (fun r => r.results)).flatten, rs.length) := by
  induction h with
  | last c hc =>
    intro fuel hf
    cases fuel with
    | zero => simp at hf
    | succ n =>
      simp only [getWellReadPages, hc]
      simp
  | step c c2 rs hc hrest ih =>
    intro fuel hf
    cases fuel with
    | zero => simp at hf
    | succ n =>
      have hn : rs.length ≤ n := by
        simp only [List.length_cons] at hf
        omega
      simp only [getWellReadPages, hc, ih n hn]
      simp

/-- C2: the History Fetcher issues exactly one list call per page, follows the
returned cursor until a response carries no (truthy) cursor, and returns the
concatenation of all pages' results — in service order — filtered to
`reading_progress > 0.75`; the returned `Nat` is the number of calls issued. -/
theorem getWellReadDocuments_pagination (s : Option Str → DocumentListResponse)
    (rs : List DocumentListResponse) (h : CursorChain s none rs) (fuel : Nat)
    (hfuel : rs.length ≤ fuel) :
    getWellReadDocuments s fuel
      = some (((rs.map (fun r => r.results)).flatten).filter
                (fun d => decide ((0.75 : ℚ) < d.reading_progress)),
              rs.length) := by
  simp [getWellReadDocuments, cursorChain_pages s none rs h fuel hfuel]

/-- C2 witness: for the 2/2/1 three-page service, exactly 3 calls are issued and all
5 records are accumulated (all pass the progress filter). -/
theorem getWellReadDocuments_pagination_witness :
    getWellReadDocuments threePageService 3
      = some ([pageDoc 1, pageDoc 2, pageDoc 3, pageDoc 4, pageDoc 5], 3) := by
  have hchain : CursorChain threePageService none [pageResp1, pageResp2, pageResp3] :=
    CursorChain.step none (strOf "c1") _ (by decide)
      (CursorChain.step (some (strOf "c1")) (strOf "c2") _ (by decide)
        (CursorChain.last (some (strOf "c2")) (by decide)))
  rw [getWellReadDocuments_pagination threePageService _ hchain 3 (by decide)]
  norm_num [pageResp1, pageResp2, pageResp3, pageDoc, List.filter]

/-- The cursor-echoing service exhausts any amount of fuel: the loop never returns. -/
theorem alwaysCursor_pages_none :
    ∀ (fuel : Nat) (c : Option Str), getWellReadPages alwaysCursorService fuel c = none := by
  intro fuel
  induction fuel with
  | zero => intro c; rfl
  | succ n ih =>
    intro c
    simp only [getWellReadPages, alwaysCursorService, truthyCursor]
    rw [if_neg (by decide : ¬(strOf "again" = []))]
    simp [ih]

/-- Unfolding of one loop iteration whose response carries a continuation cursor. -/
theorem getWellReadPages_succ_some (s : Option Str → DocumentListResponse) (k : Nat)
    (c : Option Str) (c2 : Str) (h : truthyCursor (s c).nextPageCursor = some c2) :
    getWellReadPages s (k + 1) c =
      match getWellReadPages s k (some c2) with
      | none => none
      | some (docs, m) => some ((s c).results ++ docs, m + 1) := by
  simp only [getWellReadPages, h]

/-- A terminating run of the loop yields a finite cursor chain. -/
theorem pages_some_chain (s : Option Str → DocumentListResponse) :
    ∀ (fuel : Nat) (c : Option Str) (docs : List Document) (n : Nat),
      getWellReadPages s fuel c = some (docs, n) → ∃ rs, CursorChain s c rs := by
  intro fuel
  induction fuel with
  | zero => intro c docs n h; exact absurd h (by simp [getWellReadPages])
  | succ k ih =>
    intro c docs n h
    cases htc : truthyCursor (s c).nextPageCursor with
    | none => exact ⟨[s c], CursorChain.last c htc⟩
    | some c2 =>
      rw [getWellReadPages_succ_some s k c c2 htc] at h
      cases hrec : getWellReadPages s k (some c2) with
      | none => rw [hrec] at h; exact absurd h (by simp)
      | some p =>
        obtain ⟨rs, hc⟩ := ih (some c2) p.1 p.2 (by rw [hrec])
        exact ⟨s c :: rs, CursorChain.step c c2 rs htc hc⟩

/-- C6 counterexample: `getWellReadDocuments` has no page cap or sanity guard — with a
service that echoes a cursor on every response, the pagination loop never terminates. -/
theorem pagination_diverges_on_cursor_echo : ¬ PaginationTerminates alwaysCursorService := by
  rintro ⟨fuel, docs, n, h⟩
  rw [alwaysCursor_pages_none fuel none] at h
  exact Option.noConfusion h

/-- C6 (amended): the loop's only termination driver is the cursor: it runs forever on
the cursor-echoing service, and in general it terminates exactly when following the
cursors from the first request reaches a response with no (truthy) cursor. -/
theorem pagination_no_cap_terminates_iff_chain :
    (∀ fuel c, getWellReadPages alwaysCursorService fuel c = none)
  ∧ ∀ s : Option Str → DocumentListResponse,
      PaginationTerminates s ↔ ∃ rs, CursorChain s none rs := by
  refine ⟨alwaysCursor_pages_none, fun s => ⟨?_, ?_⟩⟩
  · rintro ⟨fuel, docs, n, h⟩
    exact pages_some_chain s fuel none docs n h
  · rintro ⟨rs, h⟩
    exact ⟨rs.length, _, _, cursorChain_pages s none rs h rs.length le_rfl⟩

/-- The nested deny-list removal loop is the filter keeping exactly the keys that
match no deny-list entry. -/
theorem foldl_filter_tracking (params : List Str) :
    ∀ ps : List (Str × Str),
      params.foldl
          (fun acc p => acc.filter (fun kv => !(decide (kv.1 = p) || p.isPrefixOf kv.1))) ps
        = ps.filter (fun kv => !(params.any (fun p => decide (kv.1 = p) || p.isPrefixOf kv.1))) := by
  induction params with
  | nil => intro ps; simp
  | cons p params ih =>
    intro ps
    rw [List.foldl_cons, ih, List.filter_filter]
    refine List.filter_congr ?_
    intro kv _
    simp only [List.any_cons, Bool.not_or]
    cases decide (kv.1 = p) <;> cases p.isPrefixOf kv.1 <;>
      cases params.any (fun q => decide (kv.1 = q) || q.isPrefixOf kv.1) <;> rfl

/-- C8: URL cleanup removes exactly the query parameters whose key equals or begins
with a deny-list entry and preserves every other parameter; in particular it rewrites
`https://example.com/a?utm_source=x&id=123` to `https://example.com/a?id=123`. -/
theorem cleanAndValidateURL_tracking :
    (∀ ps : List (Str × Str), cleanSearchParams ps = ps.filter (fun kv => !(isTrackingKey kv.1)))
  ∧ cleanAndValidateURL (strOf "https://example.com/a?utm_source=x&id=123")
      = strOf "https://example.com/a?id=123" := by
  constructor
  · intro ps
    exact foldl_filter_tracking trackingParams ps
  · decide

/-- `reduceOption` inverts mapping `some` over a list. -/
theorem reduceOption_map_some {α : Type} (l : List α) : (l.map some).reduceOption = l := by
  induction l with
  | nil => rfl
  | cons a l ih => simp [ih]

/-- Splitting a separator-free string is the identity (as a single field). -/
theorem splitOnChar_no_sep (sep : Char) (t : Str) (h : sep ∉ t) :
    splitOnChar sep t = [t] := by
  induction t with
  | nil => rfl
  | cons c t ih =>
    have hc : ¬(c = sep) := fun hc => h (by rw [hc]; exact List.mem_cons_self _ _)
    have ht : sep ∉ t := fun hm => h (List.mem_cons_of_mem _ hm)
    simp [splitOnChar, if_neg hc, ih ht]

/-- Splitting after a separator-free chunk followed by a separator peels the chunk. -/
theorem splitOnChar_append (sep : Char) (t s : Str) (h : sep ∉ t) :
    splitOnChar sep (t ++ sep :: s) = t :: splitOnChar sep s := by
  induction t with
  | nil => simp [splitOnChar]
  | cons c t ih =>
    have hc : ¬(c = sep) := fun hc => h (by rw [hc]; exact List.mem_cons_self _ _)
    have ht : sep ∉ t := fun hm => h (List.mem_cons_of_mem _ hm)
    simp only [List.cons_append, splitOnChar, if_neg hc, List.append_eq]
    rw [ih ht]

/-- Splitting the one-title-per-line text recovers the lines. -/
theorem splitOnChar_joinLines (ts : List Str) (hne : ts ≠ [])
    (h : ∀ t ∈ ts, '\n' ∉ t) :
    splitOnChar '\n' (joinLines ts) = ts := by
  induction ts with
  | nil => contradiction
  | cons t ts ih =>
    cases ts with
    | nil => exact splitOnChar_no_sep '\n' t (h t (List.mem_cons_self _ _))
    | cons t2 ts2 =>
      have h1 : '\n' ∉ t := h t (List.mem_cons_self _ _)
      have h2 : ∀ u ∈ t2 :: ts2, '\n' ∉ u := fun u hu => h u (List.mem_cons_of_mem _ hu)
      simp only [joinLines]
      rw [splitOnChar_append '\n' t (joinLines (t2 :: ts2)) h1, ih (by simp) h2]

/-- Line extraction of the one-title-per-line text recovers exactly the titles, when
each title is nonempty, newline-free and trim-invariant. -/
theorem extractLines_joinLines (ts : List Str) (hne : ∀ t ∈ ts, t ≠ [])
    (hnl : ∀ t ∈ ts, '\n' ∉ t) (htr : ∀ t ∈ ts, jsTrim t = t) :
    extractLines (joinLines ts) = ts := by
  have hmap : ∀ (l : List Str), (∀ u ∈ l, jsTrim u = u) → l.map jsTrim = l := by
    intro l
    induction l with
    | nil => intro _; rfl
    | cons a l ih =>
      intro hl
      simp only [List.map_cons, hl a (List.mem_cons_self _ _),
        ih (fun u hu => hl u (List.mem_cons_of_mem _ hu))]
  cases ts with
  | nil => rfl
  | cons t ts =>
    unfold extractLines
    rw [splitOnChar_joinLines (t :: ts) (by simp) hnl, hmap (t :: ts) htr]
    rw [List.filter_eq_self.mpr ?_]
    intro a ha
    simpa using hne a ha

/-- Setting an absent key appends the binding. -/
theorem mapSet_not_mem (m : List (Str × Str)) (k v : Str) (h : ∀ p ∈ m, p.1 ≠ k) :
    mapSet m k v = m ++ [(k, v)] := by
  have hh : mapHas m k = false := by
    rw [mapHas, List.any_eq_false]
    intro p hp
    simpa using h p hp
  simp [mapSet, hh]

/-- Folding `Map.set` over articles with pairwise-distinct titles builds the plain
association list of title/url pairs, in order. -/
theorem buildMap_go (arts : List TLDRArticle) :
    ∀ m : List (Str × Str),
      (∀ a ∈ arts, ∀ p ∈ m, p.1 ≠ a.title) →
      (arts.map (fun a => a.title)).Nodup →
      arts.foldl (fun acc a => mapSet acc a.title a.url) m
        = m ++ arts.map (fun a => (a.title, a.url)) := by
  induction arts with
  | nil => intro m _ _; simp
  | cons a arts ih =>
    intro m hm hnd
    rw [List.foldl_cons,
      mapSet_not_mem m a.title a.url (fun p hp => hm a (List.mem_cons_self _ _) p hp)]
    rw [ih (m ++ [(a.title, a.url)]) ?_ ?_]
    · simp
    · intro b hb p hp
      rcases List.mem_append.mp hp with h1 | h2
      · exact hm b (List.mem_cons_of_mem _ hb) p h1
      · have hpa : p = (a.title, a.url) := by simpa using h2
        rw [hpa]
        intro heq
        simp only [List.map_cons, List.nodup_cons] at hnd
        apply hnd.1
        have hbt : b.title ∈ arts.map (fun x => x.title) := List.mem_map_of_mem _ hb
        rw [← heq] at hbt
        exact hbt
    · simp only [List.map_cons, List.nodup_cons] at hnd
      exact hnd.2

/-- With pairwise-distinct titles, the title-to-url map is the plain association list. -/
theorem buildTitleToUrlMap_eq (arts : List TLDRArticle)
    (h : (arts.map (fun a => a.title)).Nodup) :
    buildTitleToUrlMap arts = arts.map (fun a => (a.title, a.url)) := by
  have hgo := buildMap_go arts []
    (fun a _ p hp => absurd hp (List.not_mem_nil p)) h
  simpa [buildTitleToUrlMap] using hgo

/-- Looking a member's title up in the plain association list yields its url. -/
theorem mapGet_map_of_nodup (arts : List TLDRArticle) (a : TLDRArticle)
    (ha : a ∈ arts) (h : (arts.map (fun x => x.title)).Nodup) :
    mapGet (arts.map (fun x => (x.title, x.url))) a.title = some a.url := by
  induction arts with
  | nil => cases ha
  | cons b arts ih =>
    simp only [List.map_cons, List.nodup_cons] at h
    by_cases hb : b.title = a.title
    · have hab : a = b := by
        rcases List.mem_cons.mp ha with h1 | h2
        · exact h1
        · exfalso
          apply h.1
          rw [hb]
          exact List.mem_map_of_mem _ h2
      rw [hab]
      simp [mapGet, List.find?]
    · have ha2 : a ∈ arts := by
        rcases List.mem_cons.mp ha with h1 | h2
        · exact absurd (by rw [h1]) hb
        · exact h2
      simp only [mapGet, List.map_cons, List.find?, decide_eq_false hb]
      exact ih ha2 h.2

/-- An exact map hit short-circuits the line-based resolver. -/
theorem resolveLine_mapGet (m : List (Str × Str)) (t u : Str) (h : mapGet m t = some u) :
    resolveLine m t = some u := by
  simp only [resolveLine, h]

/-- C5 counterexample: with two candidates sharing the title `a`, the response text
consisting of exactly the first candidate's title resolves to the SECOND candidate's
URL (the title map overwrites duplicate keys), so the round-trip fails for S = {first
candidate}. -/
theorem line_matcher_duplicate_title_cex :
    extractTitlesAndMatchURLsLine (joinLines [dupArticle1.title]) [dupArticle1, dupArticle2]
        = Except.ok [strOf "u2"]
    ∧ strOf "u2" ≠ dupArticle1.url := by
  exact ⟨by decide, by decide⟩

/-- C5 (amended): the line-based matcher round-trips — for candidates with pairwise
distinct titles and a response consisting of exactly the verbatim titles of a
selection of candidates, one per line, it returns exactly their URLs in text order —
provided each selected title is nonempty, newline-free and trim-invariant. -/
theorem line_matcher_roundtrip (articles sel : List TLDRArticle)
    (hnodup : (articles.map (fun a => a.title)).Nodup)
    (hsub : ∀ a ∈ sel, a ∈ articles)
    (hne : ∀ a ∈ sel, a.title ≠ [])
    (hnl : ∀ a ∈ sel, '\n' ∉ a.title)
    (htrim : ∀ a ∈ sel, jsTrim a.title = a.title) :
    extractTitlesAndMatchURLsLine (joinLines (sel.map (fun a => a.title))) articles
      = Except.ok (sel.map (fun a => a.url)) := by
  have hex : extractLines (joinLines (sel.map (fun a => a.title)))
      = sel.map (fun a => a.title) := by
    refine extractLines_joinLines _ ?_ ?_ ?_ <;>
      (intro t ht; obtain ⟨a, ha, rfl⟩ := List.mem_map.mp ht)
    · exact hne a ha
    · exact hnl a ha
    · exact htrim a ha
  have hres : ∀ a ∈ sel, resolveLine (buildTitleToUrlMap articles) a.title = some a.url := by
    intro a ha
    apply resolveLine_mapGet
    rw [buildTitleToUrlMap_eq articles hnodup]
    exact mapGet_map_of_nodup articles a (hsub a ha) hnodup
  have hmapmap : (sel.map (fun a => a.title)).map (resolveLine (buildTitleToUrlMap articles))
      = (sel.map (fun a => a.url)).map some := by
    rw [List.map_map, List.map_map]
    exact List.map_congr_left (fun a ha => hres a ha)
  simp only [extractTitlesAndMatchURLsLine, hex, hmapmap, reduceOption_map_some]
  rw [if_neg (by simp)]

/-- C5 witness: the round-trip theorem applied to two distinct candidates selected in
reverse order. -/
theorem line_matcher_roundtrip_witness :
    extractTitlesAndMatchURLsLine
        (joinLines ([selArticleB, selArticleA].map (fun a => a.title)))
        [selArticleA, selArticleB]
      = Except.ok ([selArticleB, selArticleA].map (fun a => a.url)) :=
  line_matcher_roundtrip [selArticleA, selArticleB] [selArticleB, selArticleA]
    (by decide) (by decide) (by decide) (by decide) (by decide)

/-- A successful matcher run pairs each extracted title with its resolution. -/
theorem matcherOk_map_some (ts : List Str) (resolve : Str → Option Str) (unr : Str → Bool)
    (urls : List Str)
    (hok : (if ((ts.map resolve).reduceOption).length ≠ ts.length
            then (Except.error (ts.filter unr) : Except (List Str) (List Str))
            else Except.ok ((ts.map resolve).reduceOption)) = Except.ok urls) :
    ts.map resolve = urls.map some := by
  by_cases h : ((ts.map resolve).reduceOption).length = ts.length
  · rw [if_neg (by simpa using h)] at hok
    injection hok with hurls
    rw [← hurls]
    exact reduceOption_all_some (ts.map resolve) (by simpa using h)
  · rw [if_pos (by simpa using h)] at hok
    exact absurd hok (by simp)

/-- Counting a URL in the output counts the extracted titles resolving to it. -/
theorem count_of_map_eq_map_some (ts : List Str) (resolve : Str → Option Str)
    (urls : List Str) (u : Str) (h : ts.map resolve = urls.map some) :
    urls.count u = ts.countP (fun t => decide (resolve t = some u)) := by
  induction ts generalizing urls with
  | nil =>
    cases urls with
    | nil => rfl
    | cons v urls => simp at h
  | cons t ts ih =>
    cases urls with
    | nil => simp at h
    | cons v urls =>
      simp only [List.map_cons, List.cons.injEq] at h
      obtain ⟨h1, h2⟩ := h
      by_cases hvu : v = u
      · subst hvu
        simp [List.count_cons, List.countP_cons, ih urls h2, h1]
      · simp [List.count_cons, List.countP_cons, ih urls h2, h1, hvu, Ne.symm hvu]

/-- C10 counterexample: the candidate's title `A` is extracted exactly once from
`qtResponse`, yet the successful run returns the candidate's URL twice, because the
case-variant occurrence `a` also resolves to it. -/
theorem matcher_no_dedup_cex :
    (extractQuoted qtResponse).count (strOf "A") = 1
  ∧ extractTitlesAndMatchURLsQuoted qtResponse [qtArticle]
      = Except.ok [strOf "u", strOf "u"]
  ∧ [strOf "u", strOf "u"].count (strOf "u") = 2 :=
  ⟨by decide, by decide, by decide⟩

/-- C10 (amended): neither matcher variant deduplicates — on a successful run each
URL occurs in the output exactly as many times as there are extracted title
occurrences resolving to it; in particular a resolvable title extracted k times
contributes k occurrences of its URL. -/
theorem matcher_url_multiplicity (resp : Str) (arts : List TLDRArticle) (u : Str) :
    (∀ urls, extractTitlesAndMatchURLsQuoted resp arts = Except.ok urls →
      urls.count u
        = (extractQuoted resp).countP
            (fun t => decide (resolveQuoted (buildTitleToUrlMap arts) t = some u)))
  ∧ (∀ urls, extractTitlesAndMatchURLsLine resp arts = Except.ok urls →
      urls.count u
        = (extractLines resp).countP
            (fun t => decide (resolveLine (buildTitleToUrlMap arts) t = some u))) := by
  constructor
  · intro urls hok
    have hmap : (extractQuoted resp).map (resolveQuoted (buildTitleToUrlMap arts))
        = urls.map some :=
      matcherOk_map_some (extractQuoted resp) (resolveQuoted (buildTitleToUrlMap arts))
        (unresolvedQuoted (buildTitleToUrlMap arts)) urls hok
    exact count_of_map_eq_map_some _ _ urls u hmap
  · intro urls hok
    have hmap : (extractLines resp).map (resolveLine (buildTitleToUrlMap arts))
        = urls.map some :=
      matcherOk_map_some (extractLines resp) (resolveLine (buildTitleToUrlMap arts))
        (unresolvedLine (buildTitleToUrlMap arts)) urls hok
    exact count_of_map_eq_map_some _ _ urls u hmap

/-- C10 witness: the multiplicity theorem applied to a response quoting the single
candidate's title exactly once. -/
theorem matcher_url_multiplicity_witness :
    [strOf "u"].count (strOf "u")
      = (extractQuoted ([dquote] ++ strOf "A" ++ [dquote])).countP
          (fun t => decide (resolveQuoted (buildTitleToUrlMap [qtArticle]) t
                              = some (strOf "u"))) :=
  (matcher_url_multiplicity ([dquote] ++ strOf "A" ++ [dquote]) [qtArticle] (strOf "u")).1
    [strOf "u"] (by decide)
